import Mathlib

set_option maxRecDepth 10000

/-!
Shallow embedding of the provisioning / OTA core of the ESP32-IoT-Projects
repository:

* `ESP32S3_Custom_Efuse_Gen_Demo/main/main.c` — CRC-16/CCITT-FALSE,
  `efuse_is_provisioned`, `efuse_program_custom_fields`.  eFuse words are
  modelled as byte sequences (`List Nat`, each element < 256); the eFuse
  hardware (batch begin / field write / commit, any of which may fail) is
  modelled by an oracle structure `EfuseHw`, and the store semantics of a
  committed batch is bitwise OR (one-time-programmable bits only move 0 → 1).
* `ESP32C6_Secure_Boot_Https_Ota_Ref/main/ota_manager.c` —
  `in_maintenance_window` and the gate sequence of one iteration of
  `ota_decision_task`, with instrumentation flags recording which gate
  functions were invoked.
-/

namespace Esp32

/-- Inner shift-and-conditionally-xor round of `crc16_ccitt_false`
(body of the `for (int b = 0; b < 8; b++)` loop in main.c, lines 52-58).
The `% 65536` is the `uint16_t` cast of the C code. -/
def crc16_round (crc : Nat) : Nat :=
  if crc &&& 0x8000 ≠ 0 then ((crc <<< 1) ^^^ 0x1021) % 65536
  else (crc <<< 1) % 65536

/-- Per-byte step of `crc16_ccitt_false`: `crc ^= data[i] << 8` followed by
eight rounds (main.c, lines 51-58). -/
def crc16_byte (crc b : Nat) : Nat :=
  Nat.iterate crc16_round 8 (crc ^^^ (b <<< 8))

/-- CRC-16/CCITT-FALSE over a byte list, translated from `crc16_ccitt_false`
in main.c lines 46-62 (init value `0xFFFF`, fold over the data bytes). -/
def crc16_ccitt_false (data : List Nat) : Nat :=
  List.foldl crc16_byte 0xFFFF data

/-- Little-endian byte pair of a 16-bit value, as built by the C code with
`(uint8_t)(x & 0xFF)` and `(uint8_t)((x >> 8) & 0xFF)`. -/
def le2 (x : Nat) : List Nat :=
  [x &&& 0xFF, (x >>> 8) &&& 0xFF]

/-- Little-endian byte quadruple of a 32-bit value (main.c lines 314-319). -/
def le4 (x : Nat) : List Nat :=
  [x &&& 0xFF, (x >>> 8) &&& 0xFF, (x >>> 16) &&& 0xFF, (x >>> 24) &&& 0xFF]

/-- Value of a little-endian byte list (how a multi-byte eFuse field read
back into a `uint16_t`/`uint32_t` is interpreted). -/
def fromLE : List Nat → Nat
  | [] => 0
  | b :: rest => b + 256 * fromLE rest

/-- Stored custom eFuse fields: SERIAL_NUMBER (16 bytes), HW_REV (`uint16`),
FEATURE_FLAGS (`uint32`), PROVISIONING_CRC16 (`uint16`). -/
structure EfuseState where
  serial : List Nat
  hw_rev : Nat
  flags  : Nat
  crc16  : Nat
  deriving DecidableEq, Repr

/-- Well-formedness of a stored state: a 16-byte serial and fields within
their declared bit widths. -/
def EfuseState.WF (st : EfuseState) : Prop :=
  st.serial.length = 16 ∧ (∀ b ∈ st.serial, b < 256) ∧
  st.hw_rev < 65536 ∧ st.flags < 4294967296 ∧ st.crc16 < 65536

/-- Serial string bytes truncated to 16 and zero-padded to exactly 16 bytes
for the desired payload (`memcpy` of at most 16 bytes into a
zero-initialised buffer, main.c lines 258-265). -/
def pad_serial (s : List Nat) : List Nat :=
  s.take 16 ++ List.replicate (16 - (s.take 16).length) 0

/-- The fixed 22-byte payload `serial[16] ‖ hw_rev(LE,2) ‖ flags(LE,4)`
(main.c lines 112-120 and 256-275). -/
def payload_bytes (serial : List Nat) (hw_rev flags : Nat) : List Nat :=
  serial ++ le2 hw_rev ++ le4 flags

/-- Translation of `efuse_is_provisioned` (main.c lines 149-194, read-success
path): stored CRC non-zero and equal to the CRC recomputed over the stored
payload. -/
def efuse_is_provisioned (st : EfuseState) : Bool :=
  (st.crc16 != 0) &&
    (st.crc16 == crc16_ccitt_false (payload_bytes st.serial st.hw_rev st.flags))

/-- Low byte of the complement, i.e. `(uint8_t)(~b)` of the C code. -/
def bnot8 (b : Nat) : Nat := b ^^^ 0xFF

/-- The `EFUSE_CONFLICT_EXISTS` macro (main.c line 326):
`((cur) & (uint8_t)(~(desired))) != 0`. -/
def conflict_byte (cur desired : Nat) : Bool :=
  cur &&& bnot8 desired != 0

/-- Byte-wise conflict scan of one field (the `for` loops at
main.c lines 328-351). -/
def conflictExists (cur desired : List Nat) : Bool :=
  (List.zipWith conflict_byte cur desired).any id

/-- One delta byte: `desired & (uint8_t)(~cur)` — the bits that transition
0 → 1 (main.c lines 364-379). -/
def delta_byte (cur desired : Nat) : Nat :=
  desired &&& bnot8 cur

/-- Byte-wise delta buffer of one field. -/
def deltaBytes (cur desired : List Nat) : List Nat :=
  List.zipWith delta_byte cur desired

/-- Bitwise OR of two byte lists: the effect of committing staged delta bits
on one-time-programmable storage (bits only move 0 → 1). -/
def orBytes (a b : List Nat) : List Nat :=
  List.zipWith (· ||| ·) a b

/-- Error codes observable from `efuse_program_custom_fields`; `fail code`
stands for an arbitrary ESP-IDF error injected by the hardware layer. -/
inductive EspErr where
  | ok
  | invalidArg
  | invalidState
  | fail (code : Nat)
  deriving DecidableEq, Repr

/-- Hardware oracle: which of the batch operations fail (`none` = success).
`write_err` is indexed by field: 0 = SERIAL_NUMBER, 1 = HW_REV,
2 = FEATURE_FLAGS, 3 = PROVISIONING_CRC16. -/
structure EfuseHw where
  begin_err  : Option EspErr
  write_err  : Nat → Option EspErr
  commit_err : Option EspErr

/-- Result of one `efuse_program_custom_fields` call: the returned error
code, the stored state afterwards, and counters of the write operations
performed (batch begins, field writes staged, commits attempted). -/
structure ProgResult where
  err : EspErr
  st : EfuseState
  batch_begins : Nat
  field_writes : Nat
  commits : Nat
  deriving DecidableEq, Repr

/-- Desired CRC-16 over the desired payload (main.c line 278). -/
def desired_crc (s : List Nat) (hw_rev flags : Nat) : Nat :=
  crc16_ccitt_false (payload_bytes (pad_serial s) hw_rev flags)

/-- Disjunction of the four per-field conflict scans (main.c lines 328-351).
Each of the four sequential loops returns the same
`ESP_ERR_INVALID_STATE` with no write performed, so their sequencing is
observationally this disjunction. -/
def anyConflict (st : EfuseState) (s : List Nat) (hw_rev flags : Nat) : Bool :=
  conflictExists st.serial (pad_serial s) ||
  conflictExists (le2 st.hw_rev) (le2 hw_rev) ||
  conflictExists (le4 st.flags) (le4 flags) ||
  conflictExists (le2 st.crc16) (le2 (desired_crc s hw_rev flags))

/-- The `need_serial` flag: some serial delta byte is non-zero
(main.c lines 364-367). -/
def needSerial (st : EfuseState) (s : List Nat) : Bool :=
  (deltaBytes st.serial (pad_serial s)).any (· != 0)

/-- The `need_hw` flag (main.c lines 368-371). -/
def needHw (st : EfuseState) (hw_rev : Nat) : Bool :=
  (deltaBytes (le2 st.hw_rev) (le2 hw_rev)).any (· != 0)

/-- The `need_flags` flag (main.c lines 372-375). -/
def needFlags (st : EfuseState) (flags : Nat) : Bool :=
  (deltaBytes (le4 st.flags) (le4 flags)).any (· != 0)

/-- The `need_crc` flag (main.c lines 376-379). -/
def needCrc (st : EfuseState) (s : List Nat) (hw_rev flags : Nat) : Bool :=
  (deltaBytes (le2 st.crc16) (le2 (desired_crc s hw_rev flags))).any (· != 0)

/-- Negation of `!need_serial && !need_hw && !need_flags && !need_crc`
(main.c line 381). -/
def anyNeed (st : EfuseState) (s : List Nat) (hw_rev flags : Nat) : Bool :=
  needSerial st s || needHw st hw_rev || needFlags st flags ||
    needCrc st s hw_rev flags

/-- Fields staged into the batch, in program order, with the hardware write
index of each (main.c lines 393-423: a field is written only when its
`need_*` flag is set). -/
def stagePlan (st : EfuseState) (s : List Nat) (hw_rev flags : Nat) :
    List (Bool × Nat) :=
  [(needSerial st s, 0), (needHw st hw_rev, 1), (needFlags st flags, 2),
   (needCrc st s hw_rev flags, 3)]

/-- Sequential staging of the planned field writes: stops at the first
failing write, returning its error and the number of write calls made. -/
def stageFields (werr : Nat → Option EspErr) :
    List (Bool × Nat) → Option EspErr × Nat
  | [] => (none, 0)
  | (need, idx) :: rest =>
    if need then
      match werr idx with
      | some e => (some e, 1)
      | none =>
        let r := stageFields werr rest
        (r.1, r.2 + 1)
    else stageFields werr rest

/-- Stored state after a successful batch commit: each staged field gains
exactly its delta bits (OR semantics of OTP storage); unstaged fields are
untouched. -/
def commitState (st : EfuseState) (s : List Nat) (hw_rev flags : Nat) :
    EfuseState where
  serial :=
    if needSerial st s then
      orBytes st.serial (deltaBytes st.serial (pad_serial s))
    else st.serial
  hw_rev :=
    if needHw st hw_rev then
      fromLE (orBytes (le2 st.hw_rev) (deltaBytes (le2 st.hw_rev) (le2 hw_rev)))
    else st.hw_rev
  flags :=
    if needFlags st flags then
      fromLE (orBytes (le4 st.flags) (deltaBytes (le4 st.flags) (le4 flags)))
    else st.flags
  crc16 :=
    if needCrc st s hw_rev flags then
      fromLE (orBytes (le2 st.crc16)
        (deltaBytes (le2 st.crc16) (le2 (desired_crc s hw_rev flags))))
    else st.crc16

/-- Translation of `efuse_program_custom_fields` (main.c lines 242-433).
`serial_ascii = none` models a NULL pointer.  The branches, in source
order: NULL check; already-provisioned shortcut; conflict scan; all-deltas
zero shortcut; batch begin; staged field writes (cancelling the batch on
the first failure); commit. -/
def efuse_program_custom_fields (hw : EfuseHw) (st : EfuseState)
    (serial_ascii : Option (List Nat)) (hw_rev flags : Nat) : ProgResult :=
  match serial_ascii with
  | none => ⟨.invalidArg, st, 0, 0, 0⟩
  | some s =>
    if efuse_is_provisioned st then ⟨.ok, st, 0, 0, 0⟩
    else if anyConflict st s hw_rev flags then ⟨.invalidState, st, 0, 0, 0⟩
    else if !anyNeed st s hw_rev flags then ⟨.ok, st, 0, 0, 0⟩
    else
      match hw.begin_err with
      | some e => ⟨e, st, 1, 0, 0⟩
      | none =>
        let staged := stageFields hw.write_err (stagePlan st s hw_rev flags)
        match staged.1 with
        | some e => ⟨e, st, 1, staged.2, 0⟩
        | none =>
          match hw.commit_err with
          | some e => ⟨e, st, 1, staged.2, 1⟩
          | none => ⟨.ok, commitState st s hw_rev flags, 1, staged.2, 1⟩

/-- Sensible hardware oracle: a failing operation reports an actual error,
never `ESP_OK` (the C driver functions return `ESP_OK` exactly on
success). -/
def EfuseHw.WF (hw : EfuseHw) : Prop :=
  hw.begin_err ≠ some .ok ∧ (∀ i, hw.write_err i ≠ some .ok) ∧
    hw.commit_err ≠ some .ok

/-- The stored state a fully successful programming call establishes:
desired serial, the low 16 bits of `hw_rev`, the low 32 bits of `flags`,
and the CRC over the desired payload. -/
def desiredState (s : List Nat) (hw_rev flags : Nat) : EfuseState where
  serial := pad_serial s
  hw_rev := hw_rev % 65536
  flags := flags % 4294967296
  crc16 := desired_crc s hw_rev flags

/-- One provisioning call: oracle, optional serial string, hw_rev, flags. -/
structure ProgCall where
  hw : EfuseHw
  serial_ascii : Option (List Nat)
  hw_rev : Nat
  flags : Nat

/-- Stored state after a sequence of `efuse_program_custom_fields` calls. -/
def runCalls (st : EfuseState) (calls : List ProgCall) : EfuseState :=
  calls.foldl
    (fun s c => (efuse_program_custom_fields c.hw s c.serial_ascii c.hw_rev c.flags).st)
    st

/-- Modelled from the spec: one bit step of CRC-16/CCITT-FALSE (polynomial
`0x1021`), written bit-at-a-time: compare the CRC's most significant bit
with the incoming message bit, shift, and xor the polynomial on mismatch.
This is the spec-side formulation used to check that the source
implementation realises the named CRC parameters. -/
def crc16_bit_step (crc bit : Nat) : Nat :=
  if (crc >>> 15) % 2 ≠ bit then ((crc <<< 1) ^^^ 0x1021) % 65536
  else (crc <<< 1) % 65536

/-- Bits of a byte, most significant first (no input reflection). -/
def byteBitsMSB (b : Nat) : List Nat :=
  [(b >>> 7) % 2, (b >>> 6) % 2, (b >>> 5) % 2, (b >>> 4) % 2,
   (b >>> 3) % 2, (b >>> 2) % 2, (b >>> 1) % 2, b % 2]

/-- Modelled from the spec: CRC-16/CCITT-FALSE with init `0xFFFF`, no
input/output reflection (bits fed MSB-first) and xorout `0x0000`. -/
def crc16_spec (data : List Nat) : Nat :=
  data.foldl (fun c b => (byteBitsMSB b).foldl crc16_bit_step c) 0xFFFF

/-- Modelled from the spec: the payload layout table of the spec —
serial at offsets 0-15, HW_REV little-endian at offsets 16-17,
FEATURE_FLAGS little-endian at offsets 18-21. -/
def payload_spec (st : EfuseState) : List Nat :=
  st.serial ++ [st.hw_rev % 256, (st.hw_rev >>> 8) % 256] ++
    [st.flags % 256, (st.flags >>> 8) % 256,
     (st.flags >>> 16) % 256, (st.flags >>> 24) % 256]

/-- Per-byte growth relation between two stored snapshots: the old byte has
no bit outside the new byte (`old AND NOT new = 0`), and equivalently the
newly gained bits are exactly the bitwise difference
(`new AND NOT old = new XOR old`). -/
def byteLE (o n : Nat) : Prop :=
  o < 256 ∧ n < 256 ∧ o &&& bnot8 n = 0 ∧ n &&& bnot8 o = n ^^^ o

/-- Field-wise monotone-growth relation between two stored states, byte by
byte over each field's little-endian byte representation. -/
def stateLE (a b : EfuseState) : Prop :=
  List.Forall₂ byteLE a.serial b.serial ∧
  List.Forall₂ byteLE (le2 a.hw_rev) (le2 b.hw_rev) ∧
  List.Forall₂ byteLE (le4 a.flags) (le4 b.flags) ∧
  List.Forall₂ byteLE (le2 a.crc16) (le2 b.crc16)

/-- Accumulated xor of a bit list, the head shifted to position `k`, each
following bit one position lower (proof infrastructure relating the
byte-at-a-time and bit-at-a-time CRC formulations). -/
def xmask : List Nat → Nat → Nat
  | [], _ => 0
  | b :: bs, k => (b <<< k) ^^^ xmask bs (k - 1)


/-- Translation of `is_time_set` (ota_manager.c lines 60-73):
`(t.tm_year + 1900) >= 2024`, taking the full local year as input. -/
def is_time_set (year : Nat) : Bool := 2024 ≤ year

/-- Build-time OTA configuration surface used by the decision gates. -/
structure OtaCfg where
  allow_no_time : Bool
  maint_start_hour : Nat
  maint_end_hour : Nat
  batt_min_mv : Nat
  deriving DecidableEq, Repr

/-- Translation of `in_maintenance_window` (ota_manager.c lines 94-117),
taking the local wall-clock year and hour as inputs. -/
def in_maintenance_window (cfg : OtaCfg) (year hour : Nat) : Bool :=
  if !is_time_set year then
    cfg.allow_no_time
  else
    if cfg.maint_start_hour = cfg.maint_end_hour then true
    else if cfg.maint_start_hour < cfg.maint_end_hour then
      decide (cfg.maint_start_hour ≤ hour) && decide (hour < cfg.maint_end_hour)
    else
      decide (cfg.maint_start_hour ≤ hour) || decide (hour < cfg.maint_end_hour)

/-- Outcome of one iteration of the `while (1)` body of `ota_decision_task`
(ota_manager.c lines 294-324); every outcome ends with the poll delay. -/
inductive OtaOutcome where
  | noRequest
  | outsideWindow
  | lowBattery
  | networkNotReady
  | update
  deriving DecidableEq, Repr

/-- Instrumentation: which gate functions were invoked during the cycle. -/
structure GateCalls where
  maint_checked : Bool
  battery_checked : Bool
  network_checked : Bool
  deriving DecidableEq, Repr

/-- One poll cycle of `ota_decision_task` (ota_manager.c lines 294-324).
`button` and `cloud` are the values of `ota_button_pressed()` and
`cloud_trigger_requested()`; `batt_mv` the value `read_battery_mv()` would
return; `net_ready` the value `network_ready_check(...)` would return.
The second component records which gate functions are actually invoked. -/
def ota_decision_cycle (cfg : OtaCfg) (button cloud : Bool) (year hour : Nat)
    (batt_mv : Nat) (net_ready : Bool) : OtaOutcome × GateCalls :=
  let update_req := button || cloud
  if !update_req then (.noRequest, ⟨false, false, false⟩)
  else if !in_maintenance_window cfg year hour then
    (.outsideWindow, ⟨true, false, false⟩)
  else if batt_mv < cfg.batt_min_mv then (.lowBattery, ⟨true, true, false⟩)
  else if !net_ready then (.networkNotReady, ⟨true, true, true⟩)
  else (.update, ⟨true, true, true⟩)

/-! ### Concrete example values used by the witnesses -/

/-- Hardware oracle on which every batch operation succeeds. -/
def hwOk : EfuseHw := ⟨none, fun _ => none, none⟩

/-- Hardware oracle whose SERIAL_NUMBER field write fails with an injected
driver error. -/
def hwFailSerial : EfuseHw :=
  ⟨none, fun i => if i = 0 then some (.fail 5) else none, none⟩

/-- Blank (factory-fresh) eFuse state: everything reads as zero. -/
def st0 : EfuseState := ⟨List.replicate 16 0, 0, 0, 0⟩

/-- State whose first serial byte already has high bits burned
(`0b1010_0000`), CRC not yet provisioned. -/
def stConflict : EfuseState := ⟨160 :: List.replicate 15 0, 0, 0, 0⟩

/-- State already holding exactly the payload `(serial = all-zero,
hw_rev = 2666, flags = 0)`, whose CRC-16 happens to be zero, so it reads
as unprovisioned yet needs no new bits. -/
def stZeroCrc : EfuseState := ⟨List.replicate 16 0, 2666, 0, 0⟩

/-- ASCII bytes of the demo serial string "SN-ESP32S3-0001"
(main.c line 452). -/
def serialDemo : List Nat :=
  [83, 78, 45, 69, 83, 80, 51, 50, 83, 51, 45, 48, 48, 48, 49]

/-- State holding the all-zero payload together with its correct CRC-16
(`0x9FB4 = 40884`): a provisioned device. -/
def stProv : EfuseState := ⟨List.replicate 16 0, 0, 0, 40884⟩

/-! ### Byte-level lemmas -/

theorem testBit_255 (i : Nat) : Nat.testBit 255 i = decide (i < 8) := by
  rw [show (255 : Nat) = 2 ^ 8 - 1 by norm_num, Nat.testBit_two_pow_sub_one]

theorem byte_testBit_high {a : Nat} (ha : a < 256) {i : Nat} (hi : 8 ≤ i) :
    a.testBit i = false := by
  apply Nat.testBit_lt_two_pow
  calc a < 256 := ha
  _ = 2 ^ 8 := by norm_num
  _ ≤ 2 ^ i := Nat.pow_le_pow_right (by norm_num) hi

theorem bnot8_testBit_low (c : Nat) {i : Nat} (hi : i < 8) :
    (bnot8 c).testBit i = !c.testBit i := by
  unfold bnot8
  simp [Nat.testBit_xor, testBit_255, hi]

theorem bnot8_testBit_high (c : Nat) {i : Nat} (hi : 8 ≤ i) :
    (bnot8 c).testBit i = c.testBit i := by
  unfold bnot8
  simp [Nat.testBit_xor, testBit_255, Nat.not_lt.mpr hi]

theorem byte_sub_iff {a : Nat} (b : Nat) (ha : a < 256) :
    a &&& bnot8 b = 0 ↔ ∀ i, a.testBit i = true → b.testBit i = true := by
  constructor
  · intro h i hai
    have hi8 : i < 8 := by
      by_contra hge
      rw [byte_testBit_high ha (by omega)] at hai
      exact Bool.false_ne_true hai
    have hz := congrArg (fun x => x.testBit i) h
    simp only [Nat.testBit_and, Nat.zero_testBit, hai, Bool.true_and] at hz
    rw [bnot8_testBit_low b hi8] at hz
    simpa using hz
  · intro h
    apply Nat.eq_of_testBit_eq
    intro i
    simp only [Nat.testBit_and, Nat.zero_testBit]
    cases hai : a.testBit i with
    | false => simp
    | true =>
      have hi8 : i < 8 := by
        by_contra hge
        rw [byte_testBit_high ha (by omega)] at hai
        exact Bool.false_ne_true hai
      rw [bnot8_testBit_low b hi8, h i hai]
      simp

theorem byte_self_sub {b : Nat} (hb : b < 256) : b &&& bnot8 b = 0 :=
  (byte_sub_iff b hb).mpr fun _ h => h

theorem byte_sub_trans {a m n : Nat} (ha : a < 256) (hm : m < 256)
    (h1 : a &&& bnot8 m = 0) (h2 : m &&& bnot8 n = 0) : a &&& bnot8 n = 0 :=
  (byte_sub_iff n ha).mpr fun i hi =>
    (byte_sub_iff n hm).mp h2 i ((byte_sub_iff m ha).mp h1 i hi)

theorem byte_sub_antisymm {c d : Nat} (hc : c < 256) (hd : d < 256)
    (h1 : c &&& bnot8 d = 0) (h2 : d &&& bnot8 c = 0) : c = d := by
  apply Nat.eq_of_testBit_eq
  intro i
  have g1 := (byte_sub_iff d hc).mp h1 i
  have g2 := (byte_sub_iff c hd).mp h2 i
  cases hci : c.testBit i <;> cases hdi : d.testBit i <;> simp_all

theorem byte_or_recover {c d : Nat} (hc : c < 256) (hd : d < 256)
    (h : c &&& bnot8 d = 0) : c ||| (d &&& bnot8 c) = d := by
  have hsub := (byte_sub_iff d hc).mp h
  apply Nat.eq_of_testBit_eq
  intro i
  by_cases hi8 : i < 8
  · simp only [Nat.testBit_or, Nat.testBit_and, bnot8_testBit_low c hi8]
    cases hci : c.testBit i
    · simp
    · simp [hsub i hci]
  · have g1 : c.testBit i = false := byte_testBit_high hc (by omega)
    have g2 : d.testBit i = false := byte_testBit_high hd (by omega)
    simp [Nat.testBit_or, Nat.testBit_and, g1, g2]

theorem byte_sub_xor {c d : Nat} (hc : c < 256) (hd : d < 256)
    (h : c &&& bnot8 d = 0) : d &&& bnot8 c = d ^^^ c := by
  have hsub := (byte_sub_iff d hc).mp h
  apply Nat.eq_of_testBit_eq
  intro i
  by_cases hi8 : i < 8
  · simp only [Nat.testBit_and, Nat.testBit_xor, bnot8_testBit_low c hi8]
    cases hci : c.testBit i
    · simp
    · simp [hsub i hci]
  · have g1 : c.testBit i = false := byte_testBit_high hc (by omega)
    have g2 : d.testBit i = false := byte_testBit_high hd (by omega)
    simp [Nat.testBit_and, Nat.testBit_xor, g1, g2]

theorem byte_or_subset {c : Nat} (d : Nat) (hc : c < 256) :
    c &&& bnot8 (c ||| d) = 0 :=
  (byte_sub_iff _ hc).mpr fun i hi => by simp [Nat.testBit_or, hi]

theorem bnot8_lt {b : Nat} (hb : b < 256) : bnot8 b < 256 :=
  Nat.xor_lt_two_pow (n := 8) hb (by norm_num)

theorem delta_lt {c : Nat} (d : Nat) (hc : c < 256) : d &&& bnot8 c < 256 := by
  have h := Nat.and_lt_two_pow d (show bnot8 c < 2 ^ 8 by simpa using bnot8_lt hc)
  simpa using h

theorem or_byte_lt {a b : Nat} (ha : a < 256) (hb : b < 256) : a ||| b < 256 :=
  Nat.or_lt_two_pow (n := 8) ha hb

theorem and_255_lt (x : Nat) : x &&& 0xFF < 256 := by
  have h := Nat.and_lt_two_pow x (show (0xFF : Nat) < 2 ^ 8 by norm_num)
  simpa using h

theorem and_255_eq_mod (x : Nat) : x &&& 0xFF = x % 256 := by
  have h := Nat.and_pow_two_sub_one_eq_mod x 8
  norm_num at h
  exact h

/-! ### List-level lemmas -/

theorem orBytes_length (a b : List Nat) :
    (orBytes a b).length = min a.length b.length := by
  simp [orBytes]

theorem deltaBytes_length (a b : List Nat) :
    (deltaBytes a b).length = min a.length b.length := by
  simp [deltaBytes]

theorem pad_serial_length (s : List Nat) : (pad_serial s).length = 16 := by
  simp [pad_serial]

theorem pad_serial_WF {s : List Nat} (hs : ∀ b ∈ s, b < 256) :
    ∀ b ∈ pad_serial s, b < 256 := by
  intro b hb
  rcases List.mem_append.mp hb with h | h
  · exact hs b (List.mem_of_mem_take h)
  · rw [List.eq_of_mem_replicate h]
    norm_num

theorem le2_WF (x : Nat) : ∀ b ∈ le2 x, b < 256 := by
  intro b hb
  simp only [le2, List.mem_cons, List.not_mem_nil, or_false] at hb
  rcases hb with h | h <;> (subst h; exact and_255_lt _)

theorem le4_WF (x : Nat) : ∀ b ∈ le4 x, b < 256 := by
  intro b hb
  simp only [le4, List.mem_cons, List.not_mem_nil, or_false] at hb
  rcases hb with h | h | h | h <;> (subst h; exact and_255_lt _)

theorem fromLE_le2 (x : Nat) : fromLE (le2 x) = x % 65536 := by
  have h8 : x >>> 8 = x / 256 := by
    rw [Nat.shiftRight_eq_div_pow]
  simp only [fromLE, le2, and_255_eq_mod, h8]
  omega

theorem fromLE_le4 (x : Nat) : fromLE (le4 x) = x % 4294967296 := by
  have h8 : x >>> 8 = x / 256 := by
    rw [Nat.shiftRight_eq_div_pow]
  have h16 : x >>> 16 = x / 65536 := by
    rw [Nat.shiftRight_eq_div_pow]
  have h24 : x >>> 24 = x / 16777216 := by
    rw [Nat.shiftRight_eq_div_pow]
  simp only [fromLE, le4, and_255_eq_mod, h8, h16, h24]
  omega

theorem le2_congr_mod {x y : Nat} (h : x % 65536 = y % 65536) :
    le2 x = le2 y := by
  have h8 : ∀ z : Nat, z >>> 8 = z / 256 := fun z => by
    rw [Nat.shiftRight_eq_div_pow]
  simp only [le2, and_255_eq_mod, h8]
  have h1 : x % 256 = y % 256 := by omega
  have h2 : x / 256 % 256 = y / 256 % 256 := by omega
  rw [h1, h2]

theorem conflict_byte_false_iff (c d : Nat) :
    conflict_byte c d = false ↔ c &&& bnot8 d = 0 := by
  simp [conflict_byte]

theorem conflictExists_self_false {l : List Nat} (hl : ∀ b ∈ l, b < 256) :
    conflictExists l l = false := by
  induction l with
  | nil => rfl
  | cons b t ih =>
    simp only [conflictExists, List.zipWith_cons_cons, List.any_cons, id,
      Bool.or_eq_false_iff] at *
    refine ⟨?_, ih fun x hx => hl x (List.mem_cons_of_mem _ hx)⟩
    rw [conflict_byte_false_iff]
    exact byte_self_sub (hl b (List.mem_cons_self _ _))

theorem deltaBytes_self_zero {l : List Nat} (hl : ∀ b ∈ l, b < 256) :
    (deltaBytes l l).any (· != 0) = false := by
  induction l with
  | nil => rfl
  | cons b t ih =>
    simp only [deltaBytes, List.zipWith_cons_cons, List.any_cons,
      Bool.or_eq_false_iff] at *
    refine ⟨?_, ih fun x hx => hl x (List.mem_cons_of_mem _ hx)⟩
    have hz : delta_byte b b = 0 := byte_self_sub (hl b (List.mem_cons_self _ _))
    simp [hz]

theorem orBytes_delta_recover :
    ∀ cur des : List Nat, cur.length = des.length →
    (∀ b ∈ cur, b < 256) → (∀ b ∈ des, b < 256) →
    conflictExists cur des = false →
    orBytes cur (deltaBytes cur des) = des := by
  intro cur
  induction cur with
  | nil =>
    intro des hlen _ _ _
    cases des with
    | nil => rfl
    | cons d t => simp at hlen
  | cons c ct ih =>
    intro des hlen hc hd hconf
    cases des with
    | nil => simp at hlen
    | cons d dt =>
      simp only [conflictExists, List.zipWith_cons_cons, List.any_cons, id,
        Bool.or_eq_false_iff] at hconf
      have hcd : c &&& bnot8 d = 0 := (conflict_byte_false_iff c d).mp hconf.1
      simp only [orBytes, deltaBytes, List.zipWith_cons_cons, List.cons.injEq]
      refine ⟨?_, ?_⟩
      · exact byte_or_recover (hc c (List.mem_cons_self _ _))
          (hd d (List.mem_cons_self _ _)) hcd
      · have := ih dt (by simpa using hlen)
          (fun x hx => hc x (List.mem_cons_of_mem _ hx))
          (fun x hx => hd x (List.mem_cons_of_mem _ hx))
          (by simpa [conflictExists] using hconf.2)
        simpa [orBytes, deltaBytes] using this

theorem delta_zero_conflict_eq :
    ∀ cur des : List Nat, cur.length = des.length →
    (∀ b ∈ cur, b < 256) → (∀ b ∈ des, b < 256) →
    conflictExists cur des = false →
    (deltaBytes cur des).any (· != 0) = false →
    cur = des := by
  intro cur
  induction cur with
  | nil =>
    intro des hlen _ _ _ _
    cases des with
    | nil => rfl
    | cons d t => simp at hlen
  | cons c ct ih =>
    intro des hlen hc hd hconf hdelta
    cases des with
    | nil => simp at hlen
    | cons d dt =>
      simp only [conflictExists, List.zipWith_cons_cons, List.any_cons, id,
        Bool.or_eq_false_iff] at hconf
      simp only [deltaBytes, List.zipWith_cons_cons, List.any_cons,
        Bool.or_eq_false_iff] at hdelta
      have hcd : c &&& bnot8 d = 0 := (conflict_byte_false_iff c d).mp hconf.1
      have hdc : d &&& bnot8 c = 0 := by
        have := hdelta.1
        simpa [delta_byte] using this
      refine List.cons_eq_cons.mpr ⟨?_, ?_⟩
      · exact byte_sub_antisymm (hc c (List.mem_cons_self _ _))
          (hd d (List.mem_cons_self _ _)) hcd hdc
      · exact ih dt (by simpa using hlen)
          (fun x hx => hc x (List.mem_cons_of_mem _ hx))
          (fun x hx => hd x (List.mem_cons_of_mem _ hx))
          (by simpa [conflictExists] using hconf.2)
          (by simpa [deltaBytes] using hdelta.2)

/-! ### CRC bounds -/

theorem crc16_round_lt (x : Nat) : crc16_round x < 65536 := by
  unfold crc16_round
  split <;> exact Nat.mod_lt _ (by norm_num)

theorem crc16_byte_lt (crc b : Nat) : crc16_byte crc b < 65536 := by
  unfold crc16_byte
  rw [show (8 : Nat) = 7 + 1 by rfl, Function.iterate_succ_apply']
  exact crc16_round_lt _

theorem crc16_lt (data : List Nat) : crc16_ccitt_false data < 65536 := by
  unfold crc16_ccitt_false
  suffices h : ∀ (l : List Nat) (acc : Nat), acc < 65536 →
      List.foldl crc16_byte acc l < 65536 by
    exact h data 0xFFFF (by norm_num)
  intro l
  induction l with
  | nil => intro acc h; simpa using h
  | cons b t ih => intro acc _; exact ih _ (crc16_byte_lt _ _)

/-! ### Staging lemmas -/

theorem stageFields_all_none {werr : Nat → Option EspErr}
    (h : ∀ i, werr i = none) :
    ∀ l : List (Bool × Nat),
      stageFields werr l = (none, l.countP (fun p => p.1)) := by
  intro l
  induction l with
  | nil => rfl
  | cons p t ih =>
    obtain ⟨need, idx⟩ := p
    by_cases hn : need
    · simp [stageFields, hn, h idx, ih, List.countP_cons]
    · simp [stageFields, hn, ih, List.countP_cons]

theorem stageFields_err_mem {werr : Nat → Option EspErr} {e : EspErr} :
    ∀ {l : List (Bool × Nat)} {n : Nat},
      stageFields werr l = (some e, n) →
      ∃ p ∈ l, p.1 = true ∧ werr p.2 = some e := by
  intro l
  induction l with
  | nil => intro n h; simp [stageFields] at h
  | cons p t ih =>
    intro n h
    obtain ⟨need, idx⟩ := p
    by_cases hn : need
    · simp only [stageFields, hn, if_true] at h
      cases hw : werr idx with
      | some e' =>
        rw [hw] at h
        have he : e' = e := by
          have hfst := congrArg Prod.fst h
          simpa using hfst
        exact ⟨(need, idx), List.mem_cons_self _ _, hn, by rw [hw, he]⟩
      | none =>
        rw [hw] at h
        simp only [Prod.mk.injEq] at h
        obtain ⟨p', hp', hneed, hwe⟩ := ih (n := (stageFields werr t).2)
          (by rw [← h.1])
        exact ⟨p', List.mem_cons_of_mem _ hp', hneed, hwe⟩
    · simp only [stageFields, hn, if_false, Bool.false_eq_true] at h
      obtain ⟨p', hp', hneed, hwe⟩ := ih h
      exact ⟨p', List.mem_cons_of_mem _ hp', hneed, hwe⟩

/-! ### CRC bit-at-a-time refinement lemmas -/

theorem xor_shiftLeft (x y k : Nat) :
    (x ^^^ y) <<< k = (x <<< k) ^^^ (y <<< k) := by
  apply Nat.eq_of_testBit_eq
  intro i
  simp [Nat.testBit_shiftLeft, Nat.testBit_xor, Bool.and_xor_distrib_left]

theorem xmask_lt : ∀ (bs : List Nat) (k : Nat), (∀ b ∈ bs, b < 2) →
    xmask bs k < 2 ^ (k + 1) := by
  intro bs
  induction bs with
  | nil => intro k _; simpa only [xmask] using Nat.pos_pow_of_pos (k + 1) (by norm_num)
  | cons b t ih =>
    intro k hb
    have hb2 : b < 2 := hb b (List.mem_cons_self _ _)
    have h1 : b <<< k < 2 ^ (k + 1) := by
      rw [Nat.shiftLeft_eq]
      have hmul : b * 2 ^ k ≤ 1 * 2 ^ k :=
        Nat.mul_le_mul_right (2 ^ k) (by omega)
      have hpow : (0:Nat) < 2 ^ k := Nat.pos_pow_of_pos k (by norm_num)
      rw [pow_succ]
      omega
    have h2 : xmask t (k - 1) < 2 ^ (k + 1) := by
      have ha := ih (k - 1) (fun x hx => hb x (List.mem_cons_of_mem _ hx))
      have hpow : (2:Nat) ^ (k - 1 + 1) ≤ 2 ^ (k + 1) :=
        Nat.pow_le_pow_right (by norm_num) (by omega)
      omega
    simp only [xmask]
    exact Nat.xor_lt_two_pow h1 h2

theorem xmask_shift : ∀ (bs : List Nat) (k : Nat), bs.length ≤ k + 1 →
    (xmask bs k) <<< 1 = xmask bs (k + 1) := by
  intro bs
  induction bs with
  | nil => intro k _; simp [xmask]
  | cons b t ih =>
    intro k hlen
    simp only [xmask, xor_shiftLeft, Nat.shiftLeft_shiftLeft]
    cases t with
    | nil => simp [xmask]
    | cons c u =>
      have hk : 1 ≤ k := by
        simp only [List.length_cons] at hlen
        omega
      have hstep := ih (k - 1) (by simp only [List.length_cons] at hlen ⊢; omega)
      rw [hstep]
      have harg : k - 1 + 1 = k + 1 - 1 := by omega
      rw [harg]

theorem and_8000_eq_zero_iff (x : Nat) :
    x &&& 0x8000 = 0 ↔ x.testBit 15 = false := by
  rw [show (0x8000 : Nat) = 2 ^ 15 by norm_num]
  constructor
  · intro h
    have hz := congrArg (fun z => z.testBit 15) h
    simp only [Nat.testBit_and, Nat.testBit_two_pow, Nat.zero_testBit] at hz
    simpa using hz
  · intro h
    apply Nat.eq_of_testBit_eq
    intro i
    simp only [Nat.testBit_and, Nat.testBit_two_pow, Nat.zero_testBit]
    by_cases hi : 15 = i
    · subst hi; simp [h]
    · simp [hi]

theorem mod_xor_shift (u t c : Nat) :
    ((u ^^^ t) <<< 1 ^^^ c) % 65536
      = ((u <<< 1 ^^^ c) % 65536) ^^^ ((t <<< 1) % 65536) := by
  apply Nat.eq_of_testBit_eq
  intro i
  rw [show (65536 : Nat) = 2 ^ 16 by norm_num]
  simp only [Nat.testBit_mod_two_pow, Nat.testBit_xor, Nat.testBit_shiftLeft]
  by_cases h16 : i < 16 <;> by_cases h1 : 1 ≤ i <;>
    simp only [h16, h1, decide_True, decide_False, Bool.true_and,
      Bool.false_and, Bool.and_true, Bool.and_false] <;>
    cases u.testBit (i - 1) <;> cases t.testBit (i - 1) <;>
    cases c.testBit i <;> rfl

theorem crc16_round_xor (u t : Nat) (ht : t < 32768) :
    crc16_round (u ^^^ t) = crc16_round u ^^^ ((t <<< 1) % 65536) := by
  have ht15 : t.testBit 15 = false :=
    Nat.testBit_lt_two_pow (by norm_num at ht ⊢; omega)
  have hcond : (u ^^^ t).testBit 15 = u.testBit 15 := by
    simp [Nat.testBit_xor, ht15]
  unfold crc16_round
  by_cases hu : u.testBit 15
  · have h1 : ¬(u ^^^ t) &&& 0x8000 = 0 := by
      rw [and_8000_eq_zero_iff, hcond, hu]; simp
    have h2 : ¬u &&& 0x8000 = 0 := by
      rw [and_8000_eq_zero_iff, hu]; simp
    simp only [ne_eq, h1, h2, not_false_eq_true, if_true]
    exact mod_xor_shift u t 0x1021
  · have h1 : (u ^^^ t) &&& 0x8000 = 0 := by
      rw [and_8000_eq_zero_iff, hcond]
      exact Bool.not_eq_true _ ▸ (by simpa using hu)
    have h2 : u &&& 0x8000 = 0 := by
      rw [and_8000_eq_zero_iff]
      simpa using hu
    simp only [ne_eq, h1, h2, not_true_eq_false, if_false]
    have := mod_xor_shift u t 0
    simpa using this

theorem crc16_bit_step_eq_round (crc b : Nat) (hb : b < 2) :
    crc16_bit_step crc b = crc16_round (crc ^^^ (b <<< 15)) := by
  have hb15 : (b <<< 15).testBit 15 = decide (b = 1) := by
    interval_cases b
    · simp
    · decide
  have hc15 : crc.testBit 15 = decide ((crc >>> 15) % 2 = 1) := by
    rw [Nat.testBit_to_div_mod, Nat.shiftRight_eq_div_pow]
  have hval : ∀ c : Nat, ((crc ^^^ b <<< 15) <<< 1 ^^^ c) % 65536
      = (crc <<< 1 ^^^ c) % 65536 := by
    intro c
    rw [mod_xor_shift]
    have hmod : (b <<< 15 <<< 1) % 65536 = 0 := by
      rw [Nat.shiftLeft_shiftLeft, Nat.shiftLeft_eq]
      norm_num
    rw [hmod, Nat.xor_zero]
  have hcond : ((crc ^^^ b <<< 15) &&& 0x8000 = 0) ↔ ¬((crc >>> 15) % 2 ≠ b) := by
    rw [and_8000_eq_zero_iff]
    have hx : (crc ^^^ b <<< 15).testBit 15 = (crc.testBit 15 ^^ decide (b = 1)) := by
      simp [Nat.testBit_xor, hb15]
    rw [hx, hc15]
    have hm2 : (crc >>> 15) % 2 = 0 ∨ (crc >>> 15) % 2 = 1 := by omega
    interval_cases b <;> rcases hm2 with h | h <;> simp [h]
  unfold crc16_bit_step crc16_round
  by_cases hne : (crc >>> 15) % 2 ≠ b
  · have h0 : ¬((crc ^^^ b <<< 15) &&& 0x8000 = 0) := by
      rw [hcond]; simpa using hne
    simp only [hne, if_true, ne_eq, h0, not_false_eq_true]
    exact (hval 0x1021).symm
  · have h0 : (crc ^^^ b <<< 15) &&& 0x8000 = 0 := hcond.mpr hne
    simp only [hne, if_false, ne_eq, h0, not_true_eq_false]
    have := hval 0
    simpa using this.symm

theorem crc16_iterate_eq_foldl :
    ∀ bs : List Nat, (∀ b ∈ bs, b < 2) → bs.length ≤ 16 →
    ∀ crc : Nat, Nat.iterate crc16_round bs.length (crc ^^^ xmask bs 15)
      = bs.foldl crc16_bit_step crc := by
  intro bs
  induction bs with
  | nil => intro _ _ crc; simp [xmask]
  | cons b t ih =>
    intro hbits hlen crc
    have hb : b < 2 := hbits b (List.mem_cons_self _ _)
    have htbits : ∀ x ∈ t, x < 2 := fun x hx => hbits x (List.mem_cons_of_mem _ hx)
    have htlen : t.length ≤ 15 := by simp only [List.length_cons] at hlen; omega
    have hxm14 : xmask t 14 < 32768 := by
      have h := xmask_lt t 14 htbits
      norm_num at h
      exact h
    have hxm15 : xmask t 15 < 65536 := by
      have h := xmask_lt t 15 htbits
      norm_num at h
      exact h
    simp only [List.length_cons, List.foldl_cons]
    rw [Function.iterate_succ_apply]
    have hassoc : crc ^^^ xmask (b :: t) 15
        = (crc ^^^ b <<< 15) ^^^ xmask t 14 := by
      simp only [xmask]
      rw [← Nat.xor_assoc]
    rw [hassoc, crc16_round_xor _ _ hxm14]
    rw [xmask_shift t 14 (by omega), Nat.mod_eq_of_lt hxm15]
    rw [← crc16_bit_step_eq_round crc b hb]
    exact ih htbits (by omega) (crc16_bit_step crc b)

theorem byteBitsMSB_lt (b : Nat) : ∀ x ∈ byteBitsMSB b, x < 2 := by
  intro x hx
  simp only [byteBitsMSB, List.mem_cons, List.not_mem_nil, or_false] at hx
  rcases hx with h | h | h | h | h | h | h | h <;> (subst h; omega)

theorem xmask_byteBitsMSB (b : Nat) (hb : b < 256) :
    xmask (byteBitsMSB b) 15 = b <<< 8 := by
  have h : ∀ x : Fin 256, xmask (byteBitsMSB x.val) 15 = x.val <<< 8 := by decide
  exact h ⟨b, hb⟩

theorem crc16_byte_eq_spec (crc b : Nat) (hb : b < 256) :
    crc16_byte crc b = (byteBitsMSB b).foldl crc16_bit_step crc := by
  unfold crc16_byte
  rw [← xmask_byteBitsMSB b hb]
  have h := crc16_iterate_eq_foldl (byteBitsMSB b) (byteBitsMSB_lt b)
    (by simp [byteBitsMSB]) crc
  simpa [byteBitsMSB] using h

theorem crc16_eq_spec {data : List Nat} (hd : ∀ b ∈ data, b < 256) :
    crc16_ccitt_false data = crc16_spec data := by
  unfold crc16_ccitt_false crc16_spec
  suffices h : ∀ (l : List Nat) (acc : Nat), (∀ b ∈ l, b < 256) →
      List.foldl crc16_byte acc l
        = List.foldl (fun c b => (byteBitsMSB b).foldl crc16_bit_step c) acc l by
    exact h data 0xFFFF hd
  intro l
  induction l with
  | nil => intro acc _; rfl
  | cons b t ih =>
    intro acc hl
    simp only [List.foldl_cons]
    rw [crc16_byte_eq_spec acc b (hl b (List.mem_cons_self _ _))]
    exact ih _ (fun x hx => hl x (List.mem_cons_of_mem _ hx))

/-! ### Program branch lemmas -/

theorem prog_none (hw : EfuseHw) (st : EfuseState) (hw_rev flags : Nat) :
    efuse_program_custom_fields hw st none hw_rev flags
      = ⟨.invalidArg, st, 0, 0, 0⟩ := rfl

theorem prog_provisioned (hw : EfuseHw) (st : EfuseState) (s : List Nat)
    (hw_rev flags : Nat) (hp : efuse_is_provisioned st = true) :
    efuse_program_custom_fields hw st (some s) hw_rev flags
      = ⟨.ok, st, 0, 0, 0⟩ := by
  simp [efuse_program_custom_fields, hp]

theorem prog_conflict (hw : EfuseHw) (st : EfuseState) (s : List Nat)
    (hw_rev flags : Nat) (hp : efuse_is_provisioned st = false)
    (hc : anyConflict st s hw_rev flags = true) :
    efuse_program_custom_fields hw st (some s) hw_rev flags
      = ⟨.invalidState, st, 0, 0, 0⟩ := by
  simp [efuse_program_custom_fields, hp, hc]

theorem prog_noneed (hw : EfuseHw) (st : EfuseState) (s : List Nat)
    (hw_rev flags : Nat) (hp : efuse_is_provisioned st = false)
    (hc : anyConflict st s hw_rev flags = false)
    (hn : anyNeed st s hw_rev flags = false) :
    efuse_program_custom_fields hw st (some s) hw_rev flags
      = ⟨.ok, st, 0, 0, 0⟩ := by
  simp [efuse_program_custom_fields, hp, hc, hn]

theorem prog_begin_fail (hw : EfuseHw) (st : EfuseState) (s : List Nat)
    (hw_rev flags : Nat) {e : EspErr} (hp : efuse_is_provisioned st = false)
    (hc : anyConflict st s hw_rev flags = false)
    (hn : anyNeed st s hw_rev flags = true) (hb : hw.begin_err = some e) :
    efuse_program_custom_fields hw st (some s) hw_rev flags
      = ⟨e, st, 1, 0, 0⟩ := by
  simp [efuse_program_custom_fields, hp, hc, hn, hb]

theorem prog_stage_fail (hw : EfuseHw) (st : EfuseState) (s : List Nat)
    (hw_rev flags : Nat) {e : EspErr} {n : Nat}
    (hp : efuse_is_provisioned st = false)
    (hc : anyConflict st s hw_rev flags = false)
    (hn : anyNeed st s hw_rev flags = true) (hb : hw.begin_err = none)
    (hst : stageFields hw.write_err (stagePlan st s hw_rev flags) = (some e, n)) :
    efuse_program_custom_fields hw st (some s) hw_rev flags
      = ⟨e, st, 1, n, 0⟩ := by
  simp [efuse_program_custom_fields, hp, hc, hn, hb, hst]

theorem prog_commit_fail (hw : EfuseHw) (st : EfuseState) (s : List Nat)
    (hw_rev flags : Nat) {e : EspErr} {n : Nat}
    (hp : efuse_is_provisioned st = false)
    (hc : anyConflict st s hw_rev flags = false)
    (hn : anyNeed st s hw_rev flags = true) (hb : hw.begin_err = none)
    (hst : stageFields hw.write_err (stagePlan st s hw_rev flags) = (none, n))
    (hcm : hw.commit_err = some e) :
    efuse_program_custom_fields hw st (some s) hw_rev flags
      = ⟨e, st, 1, n, 1⟩ := by
  simp [efuse_program_custom_fields, hp, hc, hn, hb, hst, hcm]

theorem prog_commit_ok (hw : EfuseHw) (st : EfuseState) (s : List Nat)
    (hw_rev flags : Nat) {n : Nat} (hp : efuse_is_provisioned st = false)
    (hc : anyConflict st s hw_rev flags = false)
    (hn : anyNeed st s hw_rev flags = true) (hb : hw.begin_err = none)
    (hst : stageFields hw.write_err (stagePlan st s hw_rev flags) = (none, n))
    (hcm : hw.commit_err = none) :
    efuse_program_custom_fields hw st (some s) hw_rev flags
      = ⟨.ok, commitState st s hw_rev flags, 1, n, 1⟩ := by
  simp [efuse_program_custom_fields, hp, hc, hn, hb, hst, hcm]

theorem prog_ok_cases {hw : EfuseHw} {st : EfuseState} {s : List Nat}
    {hw_rev flags : Nat} (hhw : hw.WF)
    (hok : (efuse_program_custom_fields hw st (some s) hw_rev flags).err = .ok) :
    (efuse_is_provisioned st = true ∧
      (efuse_program_custom_fields hw st (some s) hw_rev flags).st = st) ∨
    (efuse_is_provisioned st = false ∧ anyConflict st s hw_rev flags = false ∧
      anyNeed st s hw_rev flags = false ∧
      (efuse_program_custom_fields hw st (some s) hw_rev flags).st = st) ∨
    (efuse_is_provisioned st = false ∧ anyConflict st s hw_rev flags = false ∧
      (efuse_program_custom_fields hw st (some s) hw_rev flags).st
        = commitState st s hw_rev flags) := by
  by_cases hp : efuse_is_provisioned st
  · exact Or.inl ⟨hp, by rw [prog_provisioned hw st s hw_rev flags hp]⟩
  · rw [Bool.not_eq_true] at hp
    by_cases hc : anyConflict st s hw_rev flags
    · rw [prog_conflict hw st s hw_rev flags hp hc] at hok
      exact absurd hok (by simp)
    · rw [Bool.not_eq_true] at hc
      by_cases hn : anyNeed st s hw_rev flags
      · refine Or.inr (Or.inr ⟨hp, hc, ?_⟩)
        cases hb : hw.begin_err with
        | some e =>
          rw [prog_begin_fail hw st s hw_rev flags hp hc hn hb] at hok
          exact absurd (hok ▸ hb) hhw.1
        | none =>
          cases hst : stageFields hw.write_err (stagePlan st s hw_rev flags) with
          | mk fst snd =>
            cases fst with
            | some e =>
              rw [prog_stage_fail hw st s hw_rev flags hp hc hn hb hst] at hok
              obtain ⟨p, _, _, hwp⟩ := stageFields_err_mem hst
              exact absurd (hok ▸ hwp) (hhw.2.1 p.2)
            | none =>
              cases hcm : hw.commit_err with
              | some e =>
                rw [prog_commit_fail hw st s hw_rev flags hp hc hn hb hst hcm]
                  at hok
                exact absurd (hok ▸ hcm) hhw.2.2
              | none =>
                rw [prog_commit_ok hw st s hw_rev flags hp hc hn hb hst hcm]
      · rw [Bool.not_eq_true] at hn
        exact Or.inr (Or.inl ⟨hp, hc, hn,
          by rw [prog_noneed hw st s hw_rev flags hp hc hn]⟩)

/-! ### LE round-trips and congruences -/

theorem le4_congr_mod {x y : Nat} (h : x % 4294967296 = y % 4294967296) :
    le4 x = le4 y := by
  have h8 : ∀ z : Nat, z >>> 8 = z / 256 := fun z => by
    rw [Nat.shiftRight_eq_div_pow]
  have h16 : ∀ z : Nat, z >>> 16 = z / 65536 := fun z => by
    rw [Nat.shiftRight_eq_div_pow]
  have h24 : ∀ z : Nat, z >>> 24 = z / 16777216 := fun z => by
    rw [Nat.shiftRight_eq_div_pow]
  simp only [le4, and_255_eq_mod, h8, h16, h24]
  have e1 : x % 256 = y % 256 := by omega
  have e2 : x / 256 % 256 = y / 256 % 256 := by omega
  have e3 : x / 65536 % 256 = y / 65536 % 256 := by omega
  have e4 : x / 16777216 % 256 = y / 16777216 % 256 := by omega
  rw [e1, e2, e3, e4]

theorem le2_fromLE_pair {a b : Nat} (ha : a < 256) (hb : b < 256) :
    le2 (fromLE [a, b]) = [a, b] := by
  have h8 : ∀ z : Nat, z >>> 8 = z / 256 := fun z => by
    rw [Nat.shiftRight_eq_div_pow]
  simp only [le2, fromLE, and_255_eq_mod, h8]
  have e1 : (a + 256 * (b + 256 * 0)) % 256 = a := by omega
  have e2 : (a + 256 * (b + 256 * 0)) / 256 % 256 = b := by omega
  rw [e1, e2]

theorem le4_fromLE_quad {a b c d : Nat} (ha : a < 256) (hb : b < 256)
    (hc : c < 256) (hd : d < 256) :
    le4 (fromLE [a, b, c, d]) = [a, b, c, d] := by
  have h8 : ∀ z : Nat, z >>> 8 = z / 256 := fun z => by
    rw [Nat.shiftRight_eq_div_pow]
  have h16 : ∀ z : Nat, z >>> 16 = z / 65536 := fun z => by
    rw [Nat.shiftRight_eq_div_pow]
  have h24 : ∀ z : Nat, z >>> 24 = z / 16777216 := fun z => by
    rw [Nat.shiftRight_eq_div_pow]
  simp only [le4, fromLE, and_255_eq_mod, h8, h16, h24]
  have e1 : (a + 256 * (b + 256 * (c + 256 * (d + 256 * 0)))) % 256 = a := by
    omega
  have e2 : (a + 256 * (b + 256 * (c + 256 * (d + 256 * 0)))) / 256 % 256 = b := by
    omega
  have e3 : (a + 256 * (b + 256 * (c + 256 * (d + 256 * 0)))) / 65536 % 256 = c := by
    omega
  have e4 : (a + 256 * (b + 256 * (c + 256 * (d + 256 * 0)))) / 16777216 % 256 = d := by
    omega
  rw [e1, e2, e3, e4]

theorem fromLE_pair_lt {a b : Nat} (ha : a < 256) (hb : b < 256) :
    fromLE [a, b] < 65536 := by
  simp only [fromLE]
  omega

theorem fromLE_quad_lt {a b c d : Nat} (ha : a < 256) (hb : b < 256)
    (hc : c < 256) (hd : d < 256) : fromLE [a, b, c, d] < 4294967296 := by
  simp only [fromLE]
  omega

/-! ### Commit-state characterization -/

theorem commitState_eq_desired {st : EfuseState} {s : List Nat}
    {hw_rev flags : Nat} (hWF : st.WF) (hs : ∀ b ∈ s, b < 256)
    (hc : anyConflict st s hw_rev flags = false) :
    commitState st s hw_rev flags = desiredState s hw_rev flags := by
  obtain ⟨hlen, hser, hhw, hfl, hcrc⟩ := hWF
  have hc4 := hc
  simp only [anyConflict, Bool.or_eq_false_iff] at hc4
  obtain ⟨⟨⟨hcs, hch⟩, hcf⟩, hcc⟩ := hc4
  have hdc_lt : desired_crc s hw_rev flags < 65536 := crc16_lt _
  simp only [commitState, desiredState, EfuseState.mk.injEq]
  refine ⟨?_, ?_, ?_, ?_⟩
  · split
    · exact orBytes_delta_recover st.serial (pad_serial s)
        (by rw [hlen, pad_serial_length]) hser (pad_serial_WF hs) hcs
    · rename_i hneed
      rw [Bool.not_eq_true] at hneed
      exact delta_zero_conflict_eq st.serial (pad_serial s)
        (by rw [hlen, pad_serial_length]) hser (pad_serial_WF hs) hcs hneed
  · split
    · rw [orBytes_delta_recover (le2 st.hw_rev) (le2 hw_rev) rfl
        (le2_WF _) (le2_WF _) hch, fromLE_le2]
    · rename_i hneed
      rw [Bool.not_eq_true] at hneed
      have heq := delta_zero_conflict_eq (le2 st.hw_rev) (le2 hw_rev) rfl
        (le2_WF _) (le2_WF _) hch hneed
      have := congrArg fromLE heq
      rw [fromLE_le2, fromLE_le2] at this
      omega
  · split
    · rw [orBytes_delta_recover (le4 st.flags) (le4 flags) rfl
        (le4_WF _) (le4_WF _) hcf, fromLE_le4]
    · rename_i hneed
      rw [Bool.not_eq_true] at hneed
      have heq := delta_zero_conflict_eq (le4 st.flags) (le4 flags) rfl
        (le4_WF _) (le4_WF _) hcf hneed
      have := congrArg fromLE heq
      rw [fromLE_le4, fromLE_le4] at this
      omega
  · split
    · rw [orBytes_delta_recover (le2 st.crc16) (le2 (desired_crc s hw_rev flags))
        rfl (le2_WF _) (le2_WF _) hcc, fromLE_le2]
      omega
    · rename_i hneed
      rw [Bool.not_eq_true] at hneed
      have heq := delta_zero_conflict_eq (le2 st.crc16)
        (le2 (desired_crc s hw_rev flags)) rfl (le2_WF _) (le2_WF _) hcc hneed
      have := congrArg fromLE heq
      rw [fromLE_le2, fromLE_le2] at this
      omega

theorem payload_desiredState (s : List Nat) (hw_rev flags : Nat) :
    payload_bytes (pad_serial s) (hw_rev % 65536) (flags % 4294967296)
      = payload_bytes (pad_serial s) hw_rev flags := by
  unfold payload_bytes
  rw [le2_congr_mod (x := hw_rev % 65536) (y := hw_rev) (by omega),
    le4_congr_mod (x := flags % 4294967296) (y := flags) (by omega)]

theorem is_provisioned_desiredState (s : List Nat) (hw_rev flags : Nat) :
    efuse_is_provisioned (desiredState s hw_rev flags)
      = (desired_crc s hw_rev flags != 0) := by
  unfold efuse_is_provisioned
  simp only [desiredState, payload_desiredState]
  simp [desired_crc]

theorem conflict_desired_false (s : List Nat) (hw_rev flags : Nat)
    (hs : ∀ b ∈ s, b < 256) :
    anyConflict (desiredState s hw_rev flags) s hw_rev flags = false := by
  simp only [anyConflict, desiredState, Bool.or_eq_false_iff]
  rw [le2_congr_mod (x := hw_rev % 65536) (y := hw_rev) (by omega),
    le4_congr_mod (x := flags % 4294967296) (y := flags) (by omega)]
  exact ⟨⟨⟨conflictExists_self_false (pad_serial_WF hs),
    conflictExists_self_false (le2_WF _)⟩,
    conflictExists_self_false (le4_WF _)⟩,
    conflictExists_self_false (le2_WF _)⟩

theorem need_desired_false (s : List Nat) (hw_rev flags : Nat)
    (hs : ∀ b ∈ s, b < 256) :
    anyNeed (desiredState s hw_rev flags) s hw_rev flags = false := by
  simp only [anyNeed, needSerial, needHw, needFlags, needCrc, desiredState,
    Bool.or_eq_false_iff]
  rw [le2_congr_mod (x := hw_rev % 65536) (y := hw_rev) (by omega),
    le4_congr_mod (x := flags % 4294967296) (y := flags) (by omega)]
  exact ⟨⟨⟨deltaBytes_self_zero (pad_serial_WF hs),
    deltaBytes_self_zero (le2_WF _)⟩,
    deltaBytes_self_zero (le4_WF _)⟩,
    deltaBytes_self_zero (le2_WF _)⟩

/-! ### Claim theorems -/

/-- **C1**: if `efuse_program_custom_fields(serial, hw_rev, flags)` succeeds,
a second call with identical arguments (under any hardware oracle) also
succeeds, leaves the stored payload identical, and performs zero write
operations — no batch begin, no field write, no commit. -/
theorem program_idempotent (hw1 hw2 : EfuseHw) (st : EfuseState)
    (s : List Nat) (hw_rev flags : Nat) (hWF : st.WF) (hhw : hw1.WF)
    (hs : ∀ b ∈ s, b < 256)
    (hok : (efuse_program_custom_fields hw1 st (some s) hw_rev flags).err
      = .ok) :
    efuse_program_custom_fields hw2
        (efuse_program_custom_fields hw1 st (some s) hw_rev flags).st
        (some s) hw_rev flags
      = ⟨.ok, (efuse_program_custom_fields hw1 st (some s) hw_rev flags).st,
          0, 0, 0⟩ := by
  rcases prog_ok_cases hhw hok with ⟨hp, hst⟩ | ⟨hp, hc, hn, hst⟩ | ⟨hp, hc, hst⟩
  · rw [hst]
    exact prog_provisioned hw2 st s hw_rev flags hp
  · rw [hst]
    exact prog_noneed hw2 st s hw_rev flags hp hc hn
  · rw [hst, commitState_eq_desired hWF hs hc]
    by_cases hdc : desired_crc s hw_rev flags = 0
    · have hprov : efuse_is_provisioned (desiredState s hw_rev flags) = false := by
        rw [is_provisioned_desiredState]
        simp [hdc]
      exact prog_noneed hw2 _ s hw_rev flags hprov
        (conflict_desired_false s hw_rev flags hs)
        (need_desired_false s hw_rev flags hs)
    · have hprov : efuse_is_provisioned (desiredState s hw_rev flags) = true := by
        rw [is_provisioned_desiredState]
        simp [hdc]
      exact prog_provisioned hw2 _ s hw_rev flags hprov

/-- Witness for C1: on a blank device, programming the demo values succeeds,
and the second identical call is a success with zero writes. -/
theorem program_idempotent_witness :
    (efuse_program_custom_fields hwOk st0 (some serialDemo) 1 15).err = .ok ∧
    efuse_program_custom_fields hwOk
        (efuse_program_custom_fields hwOk st0 (some serialDemo) 1 15).st
        (some serialDemo) 1 15
      = ⟨.ok, (efuse_program_custom_fields hwOk st0 (some serialDemo) 1 15).st,
          0, 0, 0⟩ := by
  refine ⟨by decide, ?_⟩
  exact program_idempotent hwOk hwOk st0 serialDemo 1 15
    (by unfold EfuseState.WF; decide)
    ⟨by simp [hwOk], fun i => by simp [hwOk], by simp [hwOk]⟩
    (by decide) (by decide)

/-- **C3**: if the device is not already provisioned with a matching CRC and
some field has a byte with `current AND NOT desired ≠ 0`, programming
fails with `ESP_ERR_INVALID_STATE` and performs no write: the stored state
and all write counters are untouched. -/
theorem program_conflict_rejected (hw : EfuseHw) (st : EfuseState)
    (s : List Nat) (hw_rev flags : Nat)
    (hp : efuse_is_provisioned st = false)
    (hc : anyConflict st s hw_rev flags = true) :
    efuse_program_custom_fields hw st (some s) hw_rev flags
      = ⟨.invalidState, st, 0, 0, 0⟩ :=
  prog_conflict hw st s hw_rev flags hp hc

/-- Witness for C3: current first serial byte `0b1010_0000`, desired
`0b0000_1111` — the call fails with the conflict error and writes
nothing. -/
theorem program_conflict_rejected_witness :
    efuse_program_custom_fields hwOk stConflict (some [15]) 0 0
      = ⟨.invalidState, stConflict, 0, 0, 0⟩ :=
  program_conflict_rejected hwOk stConflict [15] 0 0 (by decide) (by decide)

/-- **C5**: after the conflict check passes, fields whose delta
`desired AND NOT current` is all-zero are excluded from the staged batch:
if all four deltas are zero the call returns success with no batch begun
and the state unchanged, and otherwise (with a healthy bus) the number of
staged field writes is exactly the number of fields with a non-zero
delta. -/
theorem program_delta_staging (hw : EfuseHw) (st : EfuseState) (s : List Nat)
    (hw_rev flags : Nat) (hp : efuse_is_provisioned st = false)
    (hc : anyConflict st s hw_rev flags = false) :
    (anyNeed st s hw_rev flags = false →
      efuse_program_custom_fields hw st (some s) hw_rev flags
        = ⟨.ok, st, 0, 0, 0⟩) ∧
    (hw.begin_err = none → (∀ i, hw.write_err i = none) →
      (efuse_program_custom_fields hw st (some s) hw_rev flags).field_writes
        = (stagePlan st s hw_rev flags).countP (fun p => p.1)) := by
  constructor
  · intro hn
    exact prog_noneed hw st s hw_rev flags hp hc hn
  · intro hb hwr
    by_cases hn : anyNeed st s hw_rev flags
    · have hst := stageFields_all_none hwr (stagePlan st s hw_rev flags)
      cases hcm : hw.commit_err with
      | some e =>
        rw [prog_commit_fail hw st s hw_rev flags hp hc hn hb hst hcm]
      | none =>
        rw [prog_commit_ok hw st s hw_rev flags hp hc hn hb hst hcm]
    · rw [Bool.not_eq_true] at hn
      rw [prog_noneed hw st s hw_rev flags hp hc hn]
      have hz := hn
      simp only [anyNeed, Bool.or_eq_false_iff] at hz
      obtain ⟨⟨⟨h1, h2⟩, h3⟩, h4⟩ := hz
      simp [stagePlan, List.countP_cons, h1, h2, h3, h4]

/-- Witness for C5: a blank device needs all four fields (4 staged writes),
and the `stZeroCrc` state — already holding the desired payload, whose
CRC is zero — yields the all-deltas-zero no-op success. -/
theorem program_delta_staging_witness :
    (efuse_program_custom_fields hwOk st0 (some serialDemo) 1 15).field_writes
      = (stagePlan st0 serialDemo 1 15).countP (fun p => p.1) ∧
    efuse_program_custom_fields hwOk stZeroCrc (some []) 2666 0
      = ⟨.ok, stZeroCrc, 0, 0, 0⟩ := by
  constructor
  · exact (program_delta_staging hwOk st0 serialDemo 1 15 (by decide)
      (by decide)).2 rfl (fun i => rfl)
  · exact (program_delta_staging hwOk stZeroCrc [] 2666 0 (by decide)
      (by decide)).1 (by decide)

/-- **C6**: if one of the staged field writes inside the batch fails, the
batch is cancelled and the write's error is returned: the stored fields
are unchanged, no commit happens, and the returned error is exactly the
error of a failing staged write (propagated, not retried). -/
theorem program_stage_fail_cancels (hw : EfuseHw) (st : EfuseState)
    (s : List Nat) (hw_rev flags : Nat) (e : EspErr) (n : Nat)
    (hp : efuse_is_provisioned st = false)
    (hc : anyConflict st s hw_rev flags = false)
    (hn : anyNeed st s hw_rev flags = true) (hb : hw.begin_err = none)
    (hst : stageFields hw.write_err (stagePlan st s hw_rev flags)
      = (some e, n)) :
    efuse_program_custom_fields hw st (some s) hw_rev flags
      = ⟨e, st, 1, n, 0⟩ ∧
    ∃ p ∈ stagePlan st s hw_rev flags, p.1 = true ∧ hw.write_err p.2 = some e :=
  ⟨prog_stage_fail hw st s hw_rev flags hp hc hn hb hst,
    stageFields_err_mem hst⟩

/-- Witness for C6: the serial write fails with injected error code 5; the
call returns that error, leaves the blank state unchanged and commits
nothing. -/
theorem program_stage_fail_cancels_witness :
    efuse_program_custom_fields hwFailSerial st0 (some serialDemo) 1 15
      = ⟨.fail 5, st0, 1, 1, 0⟩ ∧
    ∃ p ∈ stagePlan st0 serialDemo 1 15, p.1 = true ∧
      hwFailSerial.write_err p.2 = some (.fail 5) :=
  program_stage_fail_cancels hwFailSerial st0 serialDemo 1 15 (.fail 5) 1
    (by decide) (by decide) (by decide) rfl (by decide)

/-- **C10**: a NULL serial pointer is rejected up front with
`ESP_ERR_INVALID_ARG`: the stored state is untouched and no write
operation of any kind is performed. -/
theorem program_null_serial (hw : EfuseHw) (st : EfuseState)
    (hw_rev flags : Nat) :
    efuse_program_custom_fields hw st none hw_rev flags
      = ⟨.invalidArg, st, 0, 0, 0⟩ := rfl

/-! ### Monotone growth (no bit-clearing) -/

theorem byteLE_refl {o : Nat} (ho : o < 256) : byteLE o o :=
  ⟨ho, ho, byte_self_sub ho, by rw [byte_self_sub ho, Nat.xor_self]⟩

theorem byteLE_trans {a b c : Nat} (h1 : byteLE a b) (h2 : byteLE b c) :
    byteLE a c := by
  have hsub := byte_sub_trans h1.1 h2.1 h1.2.2.1 h2.2.2.1
  exact ⟨h1.1, h2.2.1, hsub, byte_sub_xor h1.1 h2.2.1 hsub⟩

theorem byteLE_or {o d : Nat} (ho : o < 256) (hd : d < 256) :
    byteLE o (o ||| d) :=
  ⟨ho, or_byte_lt ho hd, byte_or_subset d ho,
    byte_sub_xor ho (or_byte_lt ho hd) (byte_or_subset d ho)⟩

theorem bytesLE_refl : ∀ {l : List Nat}, (∀ b ∈ l, b < 256) →
    List.Forall₂ byteLE l l := by
  intro l
  induction l with
  | nil => intro _; exact List.Forall₂.nil
  | cons b t ih =>
    intro h
    exact List.Forall₂.cons (byteLE_refl (h b (List.mem_cons_self _ _)))
      (ih fun x hx => h x (List.mem_cons_of_mem _ hx))

theorem bytesLE_trans : ∀ {a b c : List Nat}, List.Forall₂ byteLE a b →
    List.Forall₂ byteLE b c → List.Forall₂ byteLE a c := by
  intro a
  induction a with
  | nil =>
    intro b c h1 h2
    cases h1
    cases h2
    exact List.Forall₂.nil
  | cons x t ih =>
    intro b c h1 h2
    cases h1 with
    | cons hx ht =>
      cases h2 with
      | cons hy hu => exact List.Forall₂.cons (byteLE_trans hx hy) (ih ht hu)

theorem deltaBytes_WF : ∀ cur des : List Nat, (∀ b ∈ cur, b < 256) →
    ∀ b ∈ deltaBytes cur des, b < 256 := by
  intro cur
  induction cur with
  | nil => intro des _ b hb; simp [deltaBytes] at hb
  | cons c ct ih =>
    intro des hc b hb
    cases des with
    | nil => simp [deltaBytes] at hb
    | cons d dt =>
      simp only [deltaBytes, List.zipWith_cons_cons, List.mem_cons] at hb
      rcases hb with h | h
      · subst h
        exact delta_lt d (hc c (List.mem_cons_self _ _))
      · exact ih dt (fun x hx => hc x (List.mem_cons_of_mem _ hx)) b h

theorem orBytes_WF : ∀ a d : List Nat, (∀ b ∈ a, b < 256) →
    (∀ b ∈ d, b < 256) → ∀ b ∈ orBytes a d, b < 256 := by
  intro a
  induction a with
  | nil => intro d _ _ b hb; simp [orBytes] at hb
  | cons x xt ih =>
    intro d ha hd b hb
    cases d with
    | nil => simp [orBytes] at hb
    | cons y yt =>
      simp only [orBytes, List.zipWith_cons_cons, List.mem_cons] at hb
      rcases hb with h | h
      · subst h
        exact or_byte_lt (ha x (List.mem_cons_self _ _))
          (hd y (List.mem_cons_self _ _))
      · exact ih yt (fun z hz => ha z (List.mem_cons_of_mem _ hz))
          (fun z hz => hd z (List.mem_cons_of_mem _ hz)) b h

theorem bytesLE_or : ∀ a d : List Nat, a.length = d.length →
    (∀ b ∈ a, b < 256) → (∀ b ∈ d, b < 256) →
    List.Forall₂ byteLE a (orBytes a d) := by
  intro a
  induction a with
  | nil =>
    intro d hlen _ _
    cases d with
    | nil => exact List.Forall₂.nil
    | cons y yt => simp at hlen
  | cons x xt ih =>
    intro d hlen ha hd
    cases d with
    | nil => simp at hlen
    | cons y yt =>
      simp only [orBytes, List.zipWith_cons_cons]
      exact List.Forall₂.cons
        (byteLE_or (ha x (List.mem_cons_self _ _)) (hd y (List.mem_cons_self _ _)))
        (ih yt (by simpa using hlen)
          (fun z hz => ha z (List.mem_cons_of_mem _ hz))
          (fun z hz => hd z (List.mem_cons_of_mem _ hz)))

theorem stateLE_refl {st : EfuseState} (h : st.WF) : stateLE st st :=
  ⟨bytesLE_refl h.2.1, bytesLE_refl (le2_WF _), bytesLE_refl (le4_WF _),
    bytesLE_refl (le2_WF _)⟩

theorem stateLE_trans {a b c : EfuseState} (h1 : stateLE a b)
    (h2 : stateLE b c) : stateLE a c :=
  ⟨bytesLE_trans h1.1 h2.1, bytesLE_trans h1.2.1 h2.2.1,
    bytesLE_trans h1.2.2.1 h2.2.2.1, bytesLE_trans h1.2.2.2 h2.2.2.2⟩

theorem stateLE_le2_or (x y : Nat) :
    List.Forall₂ byteLE (le2 x)
      (le2 (fromLE (orBytes (le2 x) (deltaBytes (le2 x) (le2 y))))) := by
  have hx0 : x &&& 0xFF < 256 := and_255_lt x
  have hx1 : (x >>> 8) &&& 0xFF < 256 := and_255_lt _
  have hd0 : delta_byte (x &&& 0xFF) (y &&& 0xFF) < 256 := delta_lt _ hx0
  have hd1 : delta_byte ((x >>> 8) &&& 0xFF) ((y >>> 8) &&& 0xFF) < 256 :=
    delta_lt _ hx1
  have hpair : orBytes (le2 x) (deltaBytes (le2 x) (le2 y))
      = [(x &&& 0xFF) ||| delta_byte (x &&& 0xFF) (y &&& 0xFF),
         ((x >>> 8) &&& 0xFF) |||
           delta_byte ((x >>> 8) &&& 0xFF) ((y >>> 8) &&& 0xFF)] := by
    simp [le2, deltaBytes, orBytes]
  rw [hpair, le2_fromLE_pair (or_byte_lt hx0 hd0) (or_byte_lt hx1 hd1)]
  exact List.Forall₂.cons (byteLE_or hx0 hd0)
    (List.Forall₂.cons (byteLE_or hx1 hd1) List.Forall₂.nil)

theorem stateLE_le4_or (x y : Nat) :
    List.Forall₂ byteLE (le4 x)
      (le4 (fromLE (orBytes (le4 x) (deltaBytes (le4 x) (le4 y))))) := by
  have hx0 : x &&& 0xFF < 256 := and_255_lt x
  have hx1 : (x >>> 8) &&& 0xFF < 256 := and_255_lt _
  have hx2 : (x >>> 16) &&& 0xFF < 256 := and_255_lt _
  have hx3 : (x >>> 24) &&& 0xFF < 256 := and_255_lt _
  have hd0 : delta_byte (x &&& 0xFF) (y &&& 0xFF) < 256 := delta_lt _ hx0
  have hd1 : delta_byte ((x >>> 8) &&& 0xFF) ((y >>> 8) &&& 0xFF) < 256 :=
    delta_lt _ hx1
  have hd2 : delta_byte ((x >>> 16) &&& 0xFF) ((y >>> 16) &&& 0xFF) < 256 :=
    delta_lt _ hx2
  have hd3 : delta_byte ((x >>> 24) &&& 0xFF) ((y >>> 24) &&& 0xFF) < 256 :=
    delta_lt _ hx3
  have hquad : orBytes (le4 x) (deltaBytes (le4 x) (le4 y))
      = [(x &&& 0xFF) ||| delta_byte (x &&& 0xFF) (y &&& 0xFF),
         ((x >>> 8) &&& 0xFF) |||
           delta_byte ((x >>> 8) &&& 0xFF) ((y >>> 8) &&& 0xFF),
         ((x >>> 16) &&& 0xFF) |||
           delta_byte ((x >>> 16) &&& 0xFF) ((y >>> 16) &&& 0xFF),
         ((x >>> 24) &&& 0xFF) |||
           delta_byte ((x >>> 24) &&& 0xFF) ((y >>> 24) &&& 0xFF)] := by
    simp [le4, deltaBytes, orBytes]
  rw [hquad, le4_fromLE_quad (or_byte_lt hx0 hd0) (or_byte_lt hx1 hd1)
    (or_byte_lt hx2 hd2) (or_byte_lt hx3 hd3)]
  exact List.Forall₂.cons (byteLE_or hx0 hd0)
    (List.Forall₂.cons (byteLE_or hx1 hd1)
      (List.Forall₂.cons (byteLE_or hx2 hd2)
        (List.Forall₂.cons (byteLE_or hx3 hd3) List.Forall₂.nil)))

theorem stateLE_commit {st : EfuseState} (hWF : st.WF) (s : List Nat)
    (hw_rev flags : Nat) : stateLE st (commitState st s hw_rev flags) := by
  obtain ⟨hlen, hser, _, _, _⟩ := hWF
  refine ⟨?_, ?_, ?_, ?_⟩
  · simp only [commitState]
    split
    · exact bytesLE_or st.serial _
        (by rw [deltaBytes_length, hlen, pad_serial_length]; simp) hser
        (deltaBytes_WF _ _ hser)
    · exact bytesLE_refl hser
  · simp only [commitState]
    split
    · exact stateLE_le2_or st.hw_rev hw_rev
    · exact bytesLE_refl (le2_WF _)
  · simp only [commitState]
    split
    · exact stateLE_le4_or st.flags flags
    · exact bytesLE_refl (le4_WF _)
  · simp only [commitState]
    split
    · exact stateLE_le2_or st.crc16 (desired_crc s hw_rev flags)
    · exact bytesLE_refl (le2_WF _)

theorem commitState_WF {st : EfuseState} (hWF : st.WF) (s : List Nat)
    (hw_rev flags : Nat) : (commitState st s hw_rev flags).WF := by
  obtain ⟨hlen, hser, hhw, hfl, hcrc⟩ := hWF
  refine ⟨?_, ?_, ?_, ?_, ?_⟩
  · simp only [commitState]
    split
    · rw [orBytes_length, deltaBytes_length, hlen, pad_serial_length]
      simp
    · exact hlen
  · simp only [commitState]
    split
    · exact orBytes_WF _ _ hser (deltaBytes_WF _ _ hser)
    · exact hser
  · simp only [commitState]
    split
    · have hx0 : st.hw_rev &&& 0xFF < 256 := and_255_lt _
      have hx1 : (st.hw_rev >>> 8) &&& 0xFF < 256 := and_255_lt _
      simp only [le2, deltaBytes, orBytes, List.zipWith_cons_cons,
        List.zipWith_nil_right]
      exact fromLE_pair_lt (or_byte_lt hx0 (delta_lt _ hx0))
        (or_byte_lt hx1 (delta_lt _ hx1))
    · exact hhw
  · simp only [commitState]
    split
    · have hx0 : st.flags &&& 0xFF < 256 := and_255_lt _
      have hx1 : (st.flags >>> 8) &&& 0xFF < 256 := and_255_lt _
      have hx2 : (st.flags >>> 16) &&& 0xFF < 256 := and_255_lt _
      have hx3 : (st.flags >>> 24) &&& 0xFF < 256 := and_255_lt _
      simp only [le4, deltaBytes, orBytes, List.zipWith_cons_cons,
        List.zipWith_nil_right]
      exact fromLE_quad_lt (or_byte_lt hx0 (delta_lt _ hx0))
        (or_byte_lt hx1 (delta_lt _ hx1)) (or_byte_lt hx2 (delta_lt _ hx2))
        (or_byte_lt hx3 (delta_lt _ hx3))
    · exact hfl
  · simp only [commitState]
    split
    · have hx0 : st.crc16 &&& 0xFF < 256 := and_255_lt _
      have hx1 : (st.crc16 >>> 8) &&& 0xFF < 256 := and_255_lt _
      simp only [le2, deltaBytes, orBytes, List.zipWith_cons_cons,
        List.zipWith_nil_right]
      exact fromLE_pair_lt (or_byte_lt hx0 (delta_lt _ hx0))
        (or_byte_lt hx1 (delta_lt _ hx1))
    · exact hcrc

theorem prog_st_cases (hw : EfuseHw) (st : EfuseState)
    (sa : Option (List Nat)) (hw_rev flags : Nat) :
    (efuse_program_custom_fields hw st sa hw_rev flags).st = st ∨
    ∃ s, sa = some s ∧ anyConflict st s hw_rev flags = false ∧
      (efuse_program_custom_fields hw st sa hw_rev flags).st
        = commitState st s hw_rev flags := by
  cases sa with
  | none => exact Or.inl rfl
  | some s =>
    by_cases hp : efuse_is_provisioned st
    · exact Or.inl (by rw [prog_provisioned hw st s hw_rev flags hp])
    · rw [Bool.not_eq_true] at hp
      by_cases hc : anyConflict st s hw_rev flags
      · exact Or.inl (by rw [prog_conflict hw st s hw_rev flags hp hc])
      · rw [Bool.not_eq_true] at hc
        by_cases hn : anyNeed st s hw_rev flags
        · cases hb : hw.begin_err with
          | some e =>
            exact Or.inl
              (by rw [prog_begin_fail hw st s hw_rev flags hp hc hn hb])
          | none =>
            cases hst : stageFields hw.write_err (stagePlan st s hw_rev flags)
              with
            | mk fst snd =>
              cases fst with
              | some e =>
                exact Or.inl
                  (by rw [prog_stage_fail hw st s hw_rev flags hp hc hn hb hst])
              | none =>
                cases hcm : hw.commit_err with
                | some e =>
                  exact Or.inl (by
                    rw [prog_commit_fail hw st s hw_rev flags hp hc hn hb hst
                      hcm])
                | none =>
                  exact Or.inr ⟨s, rfl, hc, by
                    rw [prog_commit_ok hw st s hw_rev flags hp hc hn hb hst
                      hcm]⟩
        · rw [Bool.not_eq_true] at hn
          exact Or.inl (by rw [prog_noneed hw st s hw_rev flags hp hc hn])

theorem prog_st_WF (hw : EfuseHw) (st : EfuseState) (sa : Option (List Nat))
    (hw_rev flags : Nat) (hWF : st.WF) :
    (efuse_program_custom_fields hw st sa hw_rev flags).st.WF := by
  rcases prog_st_cases hw st sa hw_rev flags with h | ⟨s, _, _, h⟩
  · rw [h]; exact hWF
  · rw [h]; exact commitState_WF hWF s hw_rev flags

theorem prog_stateLE (hw : EfuseHw) (st : EfuseState) (sa : Option (List Nat))
    (hw_rev flags : Nat) (hWF : st.WF) :
    stateLE st (efuse_program_custom_fields hw st sa hw_rev flags).st := by
  rcases prog_st_cases hw st sa hw_rev flags with h | ⟨s, _, _, h⟩
  · rw [h]; exact stateLE_refl hWF
  · rw [h]; exact stateLE_commit hWF s hw_rev flags

theorem runCalls_cons (st : EfuseState) (c : ProgCall) (cs : List ProgCall) :
    runCalls st (c :: cs)
      = runCalls
          (efuse_program_custom_fields c.hw st c.serial_ascii c.hw_rev c.flags).st
          cs := rfl

theorem runCalls_WF : ∀ (calls : List ProgCall) (st : EfuseState), st.WF →
    (runCalls st calls).WF := by
  intro calls
  induction calls with
  | nil => intro st h; exact h
  | cons c cs ih =>
    intro st h
    rw [runCalls_cons]
    exact ih _ (prog_st_WF c.hw st c.serial_ascii c.hw_rev c.flags h)

theorem runCalls_stateLE : ∀ (calls : List ProgCall) (st : EfuseState),
    st.WF → stateLE st (runCalls st calls) := by
  intro calls
  induction calls with
  | nil => intro st h; exact stateLE_refl h
  | cons c cs ih =>
    intro st h
    rw [runCalls_cons]
    exact stateLE_trans (prog_stateLE c.hw st c.serial_ascii c.hw_rev c.flags h)
      (ih _ (prog_st_WF c.hw st c.serial_ascii c.hw_rev c.flags h))

theorem runCalls_append (st : EfuseState) (l1 l2 : List ProgCall) :
    runCalls st (l1 ++ l2) = runCalls (runCalls st l1) l2 := by
  simp [runCalls, List.foldl_append]

/-- **C2**: across any sequence of `efuse_program_custom_fields` calls, every
stored field grows monotonically bit-wise: for any earlier snapshot and any
later snapshot, byte by byte, `old AND NOT new = 0` (no bit is ever
cleared) and the gained bits satisfy `new AND NOT old = new XOR old`. -/
theorem program_no_bit_clearing (st : EfuseState) (calls : List ProgCall)
    (hWF : st.WF) (i j : Nat) (hij : i ≤ j) :
    stateLE (runCalls st (calls.take i)) (runCalls st (calls.take j)) := by
  have h1 : (calls.take j).take i = calls.take i := by
    rw [List.take_take, Nat.min_eq_left hij]
  have h2 := List.take_append_drop i (calls.take j)
  rw [h1] at h2
  rw [← h2, runCalls_append]
  exact runCalls_stateLE _ _ (runCalls_WF _ _ hWF)

/-- Witness for C2: the blank state versus the state after programming the
demo values. -/
theorem program_no_bit_clearing_witness :
    stateLE (runCalls st0 (([⟨hwOk, some serialDemo, 1, 15⟩] : List ProgCall).take 0))
      (runCalls st0 (([⟨hwOk, some serialDemo, 1, 15⟩] : List ProgCall).take 1)) :=
  program_no_bit_clearing st0 [⟨hwOk, some serialDemo, 1, 15⟩]
    (by unfold EfuseState.WF; decide) 0 1 (by omega)

/-- **C4**: `efuse_is_provisioned` reports provisioned exactly when the
stored 16-bit CRC is non-zero and equals CRC-16/CCITT-FALSE (polynomial
`0x1021`, init `0xFFFF`, no reflection, xorout `0`) of the 22-byte payload
laid out as serial at offsets 0-15, hw_rev little-endian at offsets 16-17
and flags little-endian at offsets 18-21. -/
theorem is_provisioned_crc_spec (st : EfuseState) (hWF : st.WF) :
    efuse_is_provisioned st = true ↔
      st.crc16 ≠ 0 ∧ st.crc16 = crc16_spec (payload_spec st) := by
  have hWFpay : ∀ b ∈ payload_bytes st.serial st.hw_rev st.flags, b < 256 := by
    intro b hb
    unfold payload_bytes at hb
    rcases List.mem_append.mp hb with hb | hb
    · rcases List.mem_append.mp hb with hb | hb
      · exact hWF.2.1 b hb
      · exact le2_WF _ b hb
    · exact le4_WF _ b hb
  have hpay : payload_bytes st.serial st.hw_rev st.flags = payload_spec st := by
    unfold payload_bytes payload_spec le2 le4
    simp only [and_255_eq_mod]
  unfold efuse_is_provisioned
  rw [crc16_eq_spec hWFpay, hpay]
  simp [Bool.and_eq_true, bne_iff_ne, beq_iff_eq]

/-- Witness for C4: the zero-payload state with stored CRC `0x9FB4` is
reported provisioned, by the specification-side CRC. -/
theorem is_provisioned_crc_spec_witness :
    efuse_is_provisioned stProv = true :=
  (is_provisioned_crc_spec stProv (by unfold EfuseState.WF; decide)).mpr
    ⟨by decide, by decide⟩

/-- **C7**: `in_maintenance_window` returns the configured fallback when the
local year is below 2024; with valid time it returns true always when
`start = end`, exactly on `start ≤ h < end` when `start < end`, and
exactly on `h ≥ start ∨ h < end` (midnight wraparound) when
`start > end`. -/
theorem maintenance_window_correct (cfg : OtaCfg) (year hour : Nat) :
    (year < 2024 → in_maintenance_window cfg year hour = cfg.allow_no_time) ∧
    (2024 ≤ year →
      (cfg.maint_start_hour = cfg.maint_end_hour →
        in_maintenance_window cfg year hour = true) ∧
      (cfg.maint_start_hour < cfg.maint_end_hour →
        (in_maintenance_window cfg year hour = true ↔
          cfg.maint_start_hour ≤ hour ∧ hour < cfg.maint_end_hour)) ∧
      (cfg.maint_end_hour < cfg.maint_start_hour →
        (in_maintenance_window cfg year hour = true ↔
          cfg.maint_start_hour ≤ hour ∨ hour < cfg.maint_end_hour))) := by
  unfold in_maintenance_window is_time_set
  constructor
  · intro hy
    have hny : ¬(2024 ≤ year) := by omega
    simp [hny]
  · intro hy
    simp only [hy, decide_True, Bool.not_true, Bool.false_eq_true, if_false]
    refine ⟨?_, ?_, ?_⟩
    · intro he
      simp [he]
    · intro hlt
      rw [if_neg (by omega), if_pos hlt]
      simp
    · intro hgt
      rw [if_neg (by omega), if_neg (by omega)]
      simp

/-- Witness for C7: window 22-6 contains hour 23 but not hour 10; window 9-9
contains every hour; without valid time the fallback `true` is returned. -/
theorem maintenance_window_correct_witness :
    in_maintenance_window ⟨false, 22, 6, 0⟩ 2025 23 = true ∧
    in_maintenance_window ⟨false, 22, 6, 0⟩ 2025 10 = false ∧
    in_maintenance_window ⟨false, 9, 9, 0⟩ 2025 14 = true ∧
    in_maintenance_window ⟨true, 22, 6, 0⟩ 2020 3 = true := by
  refine ⟨?_, ?_, ?_, ?_⟩
  · exact (((maintenance_window_correct ⟨false, 22, 6, 0⟩ 2025 23).2
      (by norm_num)).2.2 (by norm_num)).mpr (by norm_num)
  · have hiff := ((maintenance_window_correct ⟨false, 22, 6, 0⟩ 2025 10).2
      (by norm_num)).2.2 (by norm_num)
    cases hres : in_maintenance_window ⟨false, 22, 6, 0⟩ 2025 10
    · rfl
    · exact absurd (hiff.mp hres) (by norm_num)
  · exact ((maintenance_window_correct ⟨false, 9, 9, 0⟩ 2025 14).2
      (by norm_num)).1 rfl
  · exact (maintenance_window_correct ⟨true, 22, 6, 0⟩ 2020 3).1 (by norm_num)

/-- **C8**: with an update requested and the maintenance window open, the
battery gate passes (the network gate is then evaluated) exactly when
`batt_mv ≥ min_threshold`, and the cycle bails out with the low-battery
outcome exactly when `batt_mv < min_threshold` — so `batt_mv =
min_threshold` passes and `batt_mv = min_threshold - 1` fails. -/
theorem battery_gate_boundary (cfg : OtaCfg) (button cloud : Bool)
    (year hour batt_mv : Nat) (net_ready : Bool)
    (hreq : (button || cloud) = true)
    (hwin : in_maintenance_window cfg year hour = true) :
    ((ota_decision_cycle cfg button cloud year hour batt_mv net_ready).2.network_checked
        = true ↔ cfg.batt_min_mv ≤ batt_mv) ∧
    ((ota_decision_cycle cfg button cloud year hour batt_mv net_ready).1
        = .lowBattery ↔ batt_mv < cfg.batt_min_mv) := by
  unfold ota_decision_cycle
  simp only [hreq, hwin, Bool.not_true, Bool.false_eq_true, if_false]
  by_cases hb : batt_mv < cfg.batt_min_mv
  · rw [if_pos hb]
    simp
    omega
  · rw [if_neg hb]
    by_cases hn : net_ready
    · simp [hn]
      omega
    · simp only [Bool.not_eq_true] at hn
      simp [hn]
      omega

/-- Witness for C8 at the spec's boundary: threshold 3300 mV; a reading of
exactly 3300 passes the battery gate, a reading of 3299 fails the cycle
with the low-battery outcome. -/
theorem battery_gate_boundary_witness :
    (ota_decision_cycle ⟨true, 9, 9, 3300⟩ true false 2025 12 3300
      true).2.network_checked = true ∧
    (ota_decision_cycle ⟨true, 9, 9, 3300⟩ true false 2025 12 3299 true).1
      = .lowBattery := by
  constructor
  · exact (battery_gate_boundary ⟨true, 9, 9, 3300⟩ true false 2025 12 3300
      true rfl (by decide)).1.mpr (by norm_num)
  · exact (battery_gate_boundary ⟨true, 9, 9, 3300⟩ true false 2025 12 3299
      true rfl (by decide)).2.mpr (by norm_num)

/-- **C9**: when neither the button nor the cloud trigger requests an
update, the poll cycle ends as a no-request cycle without invoking the
maintenance-window, battery or network gate functions, whatever their
would-be values — the outcome is a constant independent of them. -/
theorem gate_short_circuit (cfg : OtaCfg) (year hour batt_mv : Nat)
    (net_ready : Bool) :
    ota_decision_cycle cfg false false year hour batt_mv net_ready
      = (.noRequest, ⟨false, false, false⟩) := rfl

end Esp32
